import Mathlib

/-! Shallow embedding of the core of the `crt` repository:
 - the boolean-expression lexer and recursive-descent parser and the
   document parser (`src/src/parser.rs`),
 - the graph flattener (`src/crates/crt-core/src/wasm.rs`, `parse_content`
   together with `flatten_expr` / `flatten_expr_inner` / `push_link`),
 - the refinement sanitizer (`src/src/refinement.rs`).

Rust `u32` ids are modelled as `Nat` (overflow is irrelevant to every
statement proved here; numeric parsing of ids keeps the `u32` bound check
where the source performs one).  Fallible Rust functions returning
`anyhow::Result` are modelled with `Except ParseErr`.  Functions that the
source writes as unbounded loops are written with an explicit fuel argument
that is provably sufficient, so that every definition evaluates inside the
kernel.
-/

namespace Crt

/-- AST of boolean endpoint expressions, `Expr` in `src/src/parser.rs`:
`EntityRef(u32)`, `Not(Box<Expr>)`, `And(Vec<Expr>)`. -/
inductive Expr where
  | entityRef (id : Nat)
  | not (e : Expr)
  | and (es : List Expr)
deriving Repr

/-- A flattened (entity id, negation) pair, `Leaf` in
`src/crates/crt-core/src/wasm.rs`. -/
structure Leaf where
  id : Nat
  negated : Bool
deriving DecidableEq, Repr

/-- Model of `flatten_expr_inner` (crt-core `wasm.rs` lines 441-458): depth-first
walk threading the negation flag; `Not` toggles it, `And` distributes it
unchanged, `EntityRef` emits a leaf.  The Rust version pushes into an `out`
vector; returning the emitted list is the same function. -/
def flatten_expr_inner : Expr → Bool → List Leaf
  | .entityRef id, negated => [⟨id, negated⟩]
  | .not inner, negated => flatten_expr_inner inner (!negated)
  | .and items, negated => flattenList items negated
where
  /-- the `for item in items` loop of the `And` arm -/
  flattenList : List Expr → Bool → List Leaf
  | [], _ => []
  | e :: rest, negated => flatten_expr_inner e negated ++ flattenList rest negated

/-- Model of `flatten_expr`: flattening starts with the negation flag `false`. -/
def flatten_expr (e : Expr) : List Leaf :=
  flatten_expr_inner e false

/-! Rust derives `Ord` on `Leaf` (field order `id`, then `negated`, with
`false < true`).  That lexicographic order is encoded by the injective key
`2 * id + negated`. -/

/-- Injective key realising the derived lexicographic order on `Leaf`. -/
def leafKey (l : Leaf) : Nat :=
  2 * l.id + (if l.negated then 1 else 0)

/-- The derived `Ord` order on `Leaf`. -/
def leafLe (a b : Leaf) : Prop := leafKey a ≤ leafKey b

instance : DecidableRel leafLe := fun a b => Nat.decLe (leafKey a) (leafKey b)

instance : IsTotal Leaf leafLe := ⟨fun a b => Nat.le_total (leafKey a) (leafKey b)⟩

instance : IsTrans Leaf leafLe := ⟨fun _ _ _ h h' => Nat.le_trans h h'⟩

/-- Model of `Vec::dedup`: removes consecutive repeated elements. -/
def dedupAdj : List Leaf → List Leaf
  | [] => []
  | [x] => [x]
  | x :: y :: rest =>
    if x = y then dedupAdj (y :: rest) else x :: dedupAdj (y :: rest)

/-- Model of `terms.sort(); terms.dedup();` — sorting by the derived total order
followed by removal of adjacent duplicates.  Any correct sort yields the
same list under a total antisymmetric order, so `List.insertionSort` is a
faithful model of `slice::sort`. -/
def sortDedup (l : List Leaf) : List Leaf :=
  dedupAdj (List.insertionSort leafLe l)

/-! Graph output of `parse_content` (crt-core `wasm.rs` lines 311-427).
The Rust builds JS objects; a node's `id` is either the string `"IF"`
(start node) or the entity id as a number, modelled by `NodeId`. -/

/-- A node identifier: the synthetic `"IF"` start node or a numeric entity id. -/
inductive NodeId where
  | start
  | ent (id : Nat)
deriving DecidableEq, Repr

/-- A node object: `id` / `text` / `type` fields set by `parse_content`. -/
structure Node where
  id : NodeId
  text : String
  kind : String
deriving DecidableEq, Repr

/-- An edge object as written by `push_link` (crt-core `wasm.rs` 460-488):
`source`, `target`, `type`, `source_negated`, `target_negated`. -/
structure Edge where
  source : NodeId
  target : NodeId
  rel : String
  source_negated : Bool
  target_negated : Bool
deriving DecidableEq, Repr

/-- The flattener's output graph. -/
structure Graph where
  nodes : List Node
  edges : List Edge
deriving DecidableEq, Repr

/-- Model of `Entity` in `src/src/parser.rs`. -/
structure Entity where
  id : Nat
  text : String
deriving Repr

/-- Model of `Link` in `src/src/parser.rs`: an id and a chain of ≥ 2 segments. -/
structure Link where
  id : Nat
  segments : List Expr
deriving Repr

/-- Model of `CRT` in `src/src/parser.rs`: two `BTreeMap`s, modelled as association
lists sorted by key. -/
structure CRT where
  entities : List (Nat × Entity)
  links : List (Nat × Link)
deriving Repr

/-- Model of `matches!(source_expr, Expr::And(_))`. -/
def isAnd : Expr → Bool
  | .and _ => true
  | _ => false

/-- Adjacent pairs: `segments.windows(2)`. -/
def windows2 {α : Type} : List α → List (α × α)
  | a :: b :: rest => (a, b) :: windows2 (b :: rest)
  | _ => []

/-- The segment pairs processed for one link, including the
`if link.segments.len() < 2 { continue; }` guard. -/
def linkPairs (l : Link) : List (Expr × Expr) :=
  if l.segments.length < 2 then [] else windows2 l.segments

/-- The edge pushed by `push_link` for a source leaf and a target leaf:
each leaf carries its own negation flag independently. -/
def pairEdgeOf (rel : String) (a b : Leaf) : Edge :=
  ⟨.ent a.id, .ent b.id, rel, a.negated, b.negated⟩

/-- The edges emitted for one adjacent pair `(S, T)`: Cartesian product of
the sorted, deduplicated leaf sets, relation `AND` iff `S`'s root is an
`And` node. -/
def edgesForPair (s t : Expr) : List Edge :=
  let from_terms := sortDedup (flatten_expr s)
  let to_terms := sortDedup (flatten_expr t)
  let relation_type := if isAnd s then "AND" else "THEN"
  from_terms.flatMap fun a =>
    to_terms.map fun b => pairEdgeOf relation_type a b

/-- All window edges of the document, in document order (links in
`BTreeMap` order, then window order, then source-leaf-major order). -/
def pairEdges (c : CRT) : List Edge :=
  (c.links.map Prod.snd).flatMap fun l =>
    (linkPairs l).flatMap fun p => edgesForPair p.1 p.2

/-- Every leaf inserted into the `source_terms` set (the deduplicated
source leaves of every window). -/
def sourceLeavesList (c : CRT) : List Leaf :=
  (c.links.map Prod.snd).flatMap fun l =>
    (linkPairs l).flatMap fun p => sortDedup (flatten_expr p.1)

/-- Every leaf inserted into the `target_terms` set. -/
def targetLeavesList (c : CRT) : List Leaf :=
  (c.links.map Prod.snd).flatMap fun l =>
    (linkPairs l).flatMap fun p => sortDedup (flatten_expr p.2)

/-- The synthetic start edge for a leaf: relation `IF`, source side never
negated, the leaf's negation on the target side. -/
def ifEdge (l : Leaf) : Edge :=
  ⟨.start, .ent l.id, "IF", false, l.negated⟩

/-- The final loop of `parse_content`: iterate the `source_terms`
`BTreeSet` (sorted, each distinct leaf once), skipping leaves present in
`target_terms`. -/
def ifEdges (c : CRT) : List Edge :=
  (sortDedup (sourceLeavesList c)).filterMap fun leaf =>
    if leaf ∈ targetLeavesList c then none else some (ifEdge leaf)

/-- The whole graph produced by `parse_content` after a successful parse:
the start node, one normal node per entity, window edges then start edges. -/
def flattenCrt (c : CRT) : Graph :=
  { nodes := ⟨.start, "IF", "start"⟩ ::
      c.entities.map (fun p => ⟨.ent p.2.id, p.2.text, "normal"⟩),
    edges := pairEdges c ++ ifEdges c }

/-! Section: Document parser (`src/src/parser.rs`)

The pest grammar file `src/crt.pest` is referenced by the source but is
not part of the repository snapshot; its line-level structure is modelled
from the spec where noted.  Everything below the line level (`tokenize_expr`,
the recursive-descent expression parser, duplicate detection,
`validate_refs`, the newline normalisation in `parse_crt`) is translated
directly from `parser.rs`. -/

/-- Tokens of the boolean-expression sublanguage (`Token` in `parser.rs`). -/
inductive Token where
  | entity (id : Nat)
  | tok_not
  | tok_and
  | lparen
  | rparen
deriving DecidableEq, Repr

/-- The parse-time error taxonomy.  The Rust source reports errors as
`anyhow` strings; each constructor corresponds to one `anyhow!` call site,
carrying the same data. -/
inductive ParseErr where
  | lexUnexpectedIdent (s : String)
  | lexExpectedDigits
  | lexInvalidEntityId (s : String)
  | lexUnexpectedChar (c : Char)
  | exprTrailingTokens
  | exprMissingRParen
  | exprUnexpectedRParen
  | exprUnexpectedEnd
  | exprUnexpectedToken
  | exprEmpty
  | exprFuel
  | invalidId
  | entityEmptyText (id : Nat)
  | duplicateEntity (id : Nat)
  | duplicateLink (id : Nat)
  | malformedLink (found : Nat)
  | undefinedEntityReference (linkId entityId : Nat)
deriving DecidableEq, Repr

/-- Decimal value of a digit string. -/
def digitsVal (ds : List Char) : Nat :=
  ds.foldl (fun a c => 10 * a + (c.toNat - 48)) 0

/-- Model of `str::parse::<u32>` on a string expected to be all digits: fails when
empty, on a non-digit, or past `u32::MAX`. -/
def parse_u32 (ds : List Char) : Option Nat :=
  if (!ds.isEmpty) && ds.all Char.isDigit then
    let v := digitsVal ds
    if v ≤ 4294967295 then some v else none
  else none

/-- Model of `eq_ignore_ascii_case` (Lean's `Char.toLower`, like Rust's
`to_ascii_lowercase`, lowers only `A`-`Z`). -/
def eqIgnoreAsciiCase (a b : List Char) : Bool :=
  a.map Char.toLower == b.map Char.toLower

/-- Model of `tokenize_expr` (`parser.rs` 90-165), written with a fuel argument so
that it evaluates in the kernel; every branch consumes at least one
character, so fuel `length + 1` (see `tokenize_expr` below) never runs
out. -/
def tokenize_go : Nat → List Char → Except ParseErr (List Token)
  | 0, _ => .error .exprFuel
  | _, [] => .ok []
  | fuel + 1, c :: rest =>
    if c = ' ' ∨ c = '\t' then tokenize_go fuel rest
    else if c = '(' then (tokenize_go fuel rest).map (Token.lparen :: ·)
    else if c = ')' then (tokenize_go fuel rest).map (Token.rparen :: ·)
    else if c = 'N' ∨ c = 'n' then
      let buf := c :: rest.takeWhile Char.isAlpha
      let rem := rest.dropWhile Char.isAlpha
      if eqIgnoreAsciiCase buf ['n', 'o', 't'] then
        (tokenize_go fuel rem).map (Token.tok_not :: ·)
      else .error (.lexUnexpectedIdent (String.mk buf))
    else if c = 'A' ∨ c = 'a' then
      let buf := c :: rest.takeWhile Char.isAlpha
      let rem := rest.dropWhile Char.isAlpha
      if eqIgnoreAsciiCase buf ['a', 'n', 'd'] then
        (tokenize_go fuel rem).map (Token.tok_and :: ·)
      else .error (.lexUnexpectedIdent (String.mk buf))
    else if c = 'E' ∨ c = 'e' then
      let digits := rest.takeWhile Char.isDigit
      let rem := rest.dropWhile Char.isDigit
      if digits.isEmpty then .error .lexExpectedDigits
      else
        match parse_u32 digits with
        | some id => (tokenize_go fuel rem).map (Token.entity id :: ·)
        | none => .error (.lexInvalidEntityId (String.mk digits))
    else .error (.lexUnexpectedChar c)

/-- Model of `tokenize_expr` entry point. -/
def tokenize_expr (cs : List Char) : Except ParseErr (List Token) :=
  tokenize_go (cs.length + 1) cs

mutual

/-- Model of `ExprParser::parse_and` (`parser.rs` 185-196). -/
def parse_and : Nat → List Token → Except ParseErr (Expr × List Token)
  | 0, _ => .error .exprFuel
  | fuel + 1, ts => do
    let (e, ts1) ← parse_not fuel ts
    parse_and_rest fuel [e] ts1

/-- The `while matches!(self.peek(), Some(Token::And))` loop of
`parse_and`, with the final one-conjunct collapse. -/
def parse_and_rest : Nat → List Expr → List Token → Except ParseErr (Expr × List Token)
  | 0, _, _ => .error .exprFuel
  | fuel + 1, acc, Token.tok_and :: rest => do
    let (e, ts1) ← parse_not fuel rest
    parse_and_rest fuel (acc ++ [e]) ts1
  | _ + 1, acc, ts =>
    match acc with
    | [e] => .ok (e, ts)
    | _ => .ok (.and acc, ts)

/-- Model of `ExprParser::parse_not` (`parser.rs` 198-205): `NOT` is
right-associative and may stack. -/
def parse_not : Nat → List Token → Except ParseErr (Expr × List Token)
  | 0, _ => .error .exprFuel
  | fuel + 1, Token.tok_not :: rest => do
    let (e, ts1) ← parse_not fuel rest
    .ok (.not e, ts1)
  | fuel + 1, ts => parse_primary fuel ts

/-- Model of `ExprParser::parse_primary` (`parser.rs` 207-228). -/
def parse_primary : Nat → List Token → Except ParseErr (Expr × List Token)
  | 0, _ => .error .exprFuel
  | _ + 1, Token.entity id :: rest => .ok (.entityRef id, rest)
  | fuel + 1, Token.lparen :: rest => do
    let (e, ts1) ← parse_and fuel rest
    match ts1 with
    | Token.rparen :: ts2 => .ok (e, ts2)
    | _ => .error .exprMissingRParen
  | _ + 1, Token.rparen :: _ => .error .exprUnexpectedRParen
  | _ + 1, [] => .error .exprUnexpectedEnd
  | _ + 1, _ => .error .exprUnexpectedToken

end

/-- Model of `ExprParser::parse` (`parser.rs` 177-183): parse an `and_expr`, then
reject trailing tokens.  The fuel bound is generous; it never runs out
because each nesting level of the recursion consumes a token within at
most three calls. -/
def parse_expr_tokens (ts : List Token) : Except ParseErr Expr := do
  let (e, rest) ← parse_and (4 * ts.length + 4) ts
  if rest.isEmpty then .ok e else .error .exprTrailingTokens

/-- Model of `split_once("//")`: everything before the first `//`. -/
def stripLineComment : List Char → List Char
  | [] => []
  | '/' :: '/' :: _ => []
  | c :: rest => c :: stripLineComment rest

/-- Model of `str::trim` on both ends. -/
def trimChars (cs : List Char) : List Char :=
  ((cs.dropWhile Char.isWhitespace).reverse.dropWhile Char.isWhitespace).reverse

/-- Model of `parse_expr` (`parser.rs` 336-349): strip a trailing `//` comment,
trim, reject empty, then tokenize and parse. -/
def parse_expr_str (cs : List Char) : Except ParseErr Expr :=
  let text := trimChars (stripLineComment cs)
  if text.isEmpty then .error .exprEmpty
  else do
    let ts ← tokenize_expr text
    parse_expr_tokens ts

/-- Model of `str::split(sep)` over characters, producing `number of separators + 1`
pieces. -/
def splitOnChar (sep : Char) : List Char → List (List Char)
  | [] => [[]]
  | c :: rest =>
    if c = sep then [] :: splitOnChar sep rest
    else
      match splitOnChar sep rest with
      | l :: ls => (c :: l) :: ls
      | [] => [[c]]

/-- Sorted insertion into a `BTreeMap` modelled as a key-sorted
association list. -/
def insertSorted {α : Type} (k : Nat) (v : α) : List (Nat × α) → List (Nat × α)
  | [] => [(k, v)]
  | (k', v') :: rest =>
    if k < k' then (k, v) :: (k', v') :: rest
    else (k', v') :: insertSorted k v rest

/-- Model of `BTreeMap::contains_key`. -/
def containsKey {α : Type} (m : List (Nat × α)) (k : Nat) : Bool :=
  m.any (fun p => p.1 == k)

/-- Model of `BTreeMap::insert(k, v).is_some()`-style insertion: `none` signals the
key was already present (the duplicate-id error paths). -/
def btreeInsertNew {α : Type} (k : Nat) (v : α) (m : List (Nat × α)) :
    Option (List (Nat × α)) :=
  if containsKey m k then none else some (insertSorted k v m)

/-- Modelled from the spec: the grammar file `src/crt.pest` is missing from
the snapshot, so line classification follows §4.3 of the spec: blank lines
and heading lines are structurally insignificant; an entity line matches
`E<digits>.<ws><text>`; a link line matches
`L<digits>.<ws><expr>(<ws>→<ws><expr>)+`.  A line that starts like an
entity/link line but lacks the digits or the dot is treated as a heading.
The body of each match (`parse_entity_line`, `parse_link_line`,
duplicate detection) is translated from `parser.rs` 264-334. -/
def parse_doc_line (st : CRT) (line : List Char) : Except ParseErr CRT :=
  match trimChars line with
  | 'E' :: rest =>
    let ds := rest.takeWhile Char.isDigit
    let rest' := rest.dropWhile Char.isDigit
    (match ds, rest' with
     | _ :: _, '.' :: text =>
       (match parse_u32 ds with
        | none => .error .invalidId
        | some id =>
          let t := trimChars text
          if t.isEmpty then .error (.entityEmptyText id)
          else
            match btreeInsertNew id ⟨id, String.mk t⟩ st.entities with
            | none => .error (.duplicateEntity id)
            | some ents => .ok ⟨ents, st.links⟩)
     | _, _ => .ok st)
  | 'L' :: rest =>
    let ds := rest.takeWhile Char.isDigit
    let rest' := rest.dropWhile Char.isDigit
    (match ds, rest' with
     | _ :: _, '.' :: body =>
       (match parse_u32 ds with
        | none => .error .invalidId
        | some id =>
          let pieces := splitOnChar '→' body
          if pieces.length < 2 then .error (.malformedLink pieces.length)
          else do
            let segments ← pieces.mapM parse_expr_str
            match btreeInsertNew id ⟨id, segments⟩ st.links with
            | none => .error (.duplicateLink id)
            | some links => .ok ⟨st.entities, links⟩)
     | _, _ => .ok st)
  | _ => .ok st

/-- The `for section in file.into_inner()` loop over lines. -/
def parse_doc_lines : List (List Char) → CRT → Except ParseErr CRT
  | [], st => .ok st
  | l :: ls, st =>
    match parse_doc_line st l with
    | .error e => .error e
    | .ok st' => parse_doc_lines ls st'

/-- The `collect` helper of `validate_refs` (`parser.rs` 352-358):
depth-first collection of every `EntityRef` id in an expression. -/
def collect_refs : Expr → List Nat
  | .entityRef id => [id]
  | .not inner => collect_refs inner
  | .and items => collectList items
where
  /-- the `items.iter().for_each(...)` arm -/
  collectList : List Expr → List Nat
  | [] => []
  | e :: rest => collect_refs e ++ collectList rest

/-- Model of `validate_refs` (`parser.rs` 351-375): for each link (in `BTreeMap`
order), the first collected id absent from the entity table yields
`UndefinedEntityReference(link_id, entity_id)`. -/
def validate_refs (entities : List (Nat × Entity)) :
    List (Nat × Link) → Except ParseErr Unit
  | [] => .ok ()
  | (_, link) :: rest =>
    match (link.segments.flatMap collect_refs).find?
        (fun id => !containsKey entities id) with
    | some id => .error (.undefinedEntityReference link.id id)
    | none => validate_refs entities rest

/-- The body of `parse_crt` after newline normalisation: process the
lines, then run the single whole-document referential-integrity pass. -/
def parse_crt_core (cs : List Char) : Except ParseErr CRT :=
  match parse_doc_lines (splitOnChar '\n' cs) ⟨[], []⟩ with
  | .error e => .error e
  | .ok crt =>
    match validate_refs crt.entities crt.links with
    | .error e => .error e
    | .ok _ => .ok crt

/-- Model of `parse_crt` (`parser.rs` 250-287): append a final newline when
the input lacks one (`input.ends_with('\\n')` is a last-character test),
then parse. -/
def parse_crt (input : String) : Except ParseErr CRT :=
  let cs := input.data
  parse_crt_core (if cs.getLast? = some '\n' then cs else cs ++ ['\n'])

/-! Section: Refinement sanitizer (`src/src/refinement.rs`)

`HashSet<String>` inputs and the internal `used_ids` sets are modelled as
`List String` with membership semantics (duplicate appends are harmless).
The internal `id_mapping : HashMap<String, String>` is an association list
in insertion order with overwrite-on-insert; the only place Rust *iterates*
that map (so the only place its unspecified hash order is observable) is
`apply_mapping`, and there the order is made explicit via a `reorder`
parameter on `sanitize_with`. -/

/-- Model of `^E\d+$`. -/
def valid_entity_id (s : String) : Bool :=
  match s.data with
  | 'E' :: ds => (!ds.isEmpty) && ds.all Char.isDigit
  | _ => false

/-- Model of `^L\d+$`. -/
def valid_link_id (s : String) : Bool :=
  match s.data with
  | 'L' :: ds => (!ds.isEmpty) && ds.all Char.isDigit
  | _ => false

/-- Model of `id.trim_start_matches(pre).parse::<u32>().ok()`: strip every leading
copy of `pre`, then parse (digits only; a `+`-prefixed Rust parse is not
relevant to any id shape considered here). -/
def numericSuffix (pre : Char) (id : String) : Option Nat :=
  parse_u32 (id.data.dropWhile (· = pre))

/-- Seed of `next_index` / `next_link_index`: one past the maximum parsed
suffix, `max().unwrap_or(0) + 1`. -/
def seed_next (pre : Char) (ids : List String) : Nat :=
  (ids.filterMap (numericSuffix pre)).foldl max 0 + 1

/-- Decimal digits of a `Nat`, fuel-driven so it evaluates in the kernel
(`n + 1` fuel is always enough since a number has at most `n + 1` digits). -/
def nat_digits_go : Nat → Nat → List Char
  | 0, _ => []
  | fuel + 1, n =>
    if n < 10 then [Nat.digitChar n]
    else nat_digits_go fuel (n / 10) ++ [Nat.digitChar (n % 10)]

/-- Decimal rendering of a `Nat`, as `format!("{}", n)` renders a `u32`. -/
def natToStr (n : Nat) : String :=
  String.mk (nat_digits_go (n + 1) n)

/-- Model of `format!("E{}", next_index)` / `format!("L{}", next_link_index)`. -/
def cand (pre : String) (n : Nat) : String := pre ++ natToStr n

/-- The fresh-id allocation loop: try `pre ++ n`, `pre ++ (n+1)`, … until a
candidate is not in `used`.  Fuel `used.length + 1` always suffices (among
`used.length + 1` distinct candidate strings at least one is free —
`alloc_loop_finds_free` below), so the fuel-0 fallback is unreachable. -/
def alloc_loop (pre : String) (used : List String) : Nat → Nat → String × Nat
  | 0, next => (cand pre next, next + 1)
  | fuel + 1, next =>
    if used.contains (cand pre next) then alloc_loop pre used fuel (next + 1)
    else (cand pre next, next + 1)

/-- The `loop { let candidate = format!(...); ... }` blocks of
`sanitize_entities_and_links`, returning the allocated id and the advanced
`next_index`. -/
def alloc_fresh (pre : String) (used : List String) (next : Nat) : String × Nat :=
  alloc_loop pre used (used.length + 1) next

/-- Leftmost, non-overlapping replacement of the literal pattern `pat` by
`rep` — the semantics of `Regex::replace_all` for a pattern with no
metacharacters and a replacement with no `$`.  Fuel-driven; `text.length + 1`
suffices since each step consumes at least one character (the pattern used
by `apply_mapping` is never empty). -/
def replace_go : Nat → List Char → List Char → List Char → List Char
  | 0, _, _, text => text
  | _ + 1, _, _, [] => []
  | fuel + 1, pat, rep, c :: rest =>
    if (!pat.isEmpty) && pat.isPrefixOf (c :: rest) then
      rep ++ replace_go fuel pat rep ((c :: rest).drop pat.length)
    else c :: replace_go fuel pat rep rest

/-- Model of `regex.replace_all(text, rep)` for a literal pattern. -/
def replace_all (pat rep text : List Char) : List Char :=
  replace_go (text.length + 1) pat rep text

/-- The text actually matched by the regex built in `apply_mapping`
(`refinement.rs` 297).  The format string is the RAW string `r"\\b{}\\b"`,
so the regex source is `\\b<escaped old>\\b`, which as a regex matches the
literal characters backslash, `b`, the old id, backslash, `b` — NOT word
boundaries (`regex::escape` makes `old` match itself literally). -/
def wordPat (old : List Char) : List Char :=
  '\\' :: 'b' :: old ++ ['\\', 'b']

/-- Model of `apply_mapping` (`refinement.rs` 294-301): fold the replacement over
the mapping's pairs in the given iteration order.  Fresh ids contain no
`$`, so replacement-string capture expansion cannot occur. -/
def apply_mapping (text : List Char) (mapping : List (String × String)) : List Char :=
  mapping.foldl (fun result p => replace_all (wordPat p.1.data) p.2.data result) text

/-- Model of `CrtEntity`: the sanitizer-relevant fields. -/
structure CrtEntity where
  id : String
  text : String
  added : Bool
deriving DecidableEq, Repr

/-- Model of `CrtLink`.  `fromRef`/`toRef`/`kindRef` model the `from`/`to`/`type`
fields (`from` is a Lean keyword); `textExtra` models `extra["text"]` when
that JSON value is a string — the only `extra` entry `sanitize` touches. -/
structure CrtLink where
  id : String
  fromRef : Option String
  toRef : Option String
  kindRef : Option String
  added : Bool
  entities : List String
  source_entities : List String
  target_entities : List String
  expressions : List String
  line : Option String
  textExtra : Option String
deriving DecidableEq, Repr

/-- Model of `CrtRestatement`: proposed entities and links (the flattened `extra`
sections are carried through `sanitize` unchanged and are omitted). -/
structure CrtRestatement where
  entities : List CrtEntity
  links : List CrtLink
deriving DecidableEq, Repr

/-- Model of `AgentRefinement`: only the restatement participates in `sanitize`;
the analysis sections pass through unchanged. -/
structure AgentRefinement where
  crt_restatement : CrtRestatement
deriving DecidableEq, Repr

/-- State threaded through the entity pass: `used_ids`, `next_index`,
`id_mapping`. -/
structure EntSt where
  used : List String
  next : Nat
  mapping : List (String × String)
deriving Repr

/-- Model of `HashMap::insert` on the association list: overwrite an existing key,
else append. -/
def insertAL (m : List (String × String)) (k v : String) : List (String × String) :=
  if m.any (fun p => p.1 == k) then
    m.map (fun p => if p.1 == k then (k, v) else p)
  else m ++ [(k, v)]

/-- Model of `HashMap::get` on the association list. -/
def lookupAL (m : List (String × String)) (k : String) : Option String :=
  (m.find? (fun p => p.1 == k)).map Prod.snd

/-- The `needs_new` decision of the entity pass (`refinement.rs` 116-125),
with its exact `else if` structure: an id that is valid and present in
`existing_entity_ids` short-circuits past the `used_ids` collision check. -/
def needs_new_entity (existing used : List String) (e : CrtEntity) : Bool :=
  if !valid_entity_id e.id then true
  else if existing.contains e.id then e.added
  else if used.contains e.id then true
  else false

/-- One iteration of `for entity in restatement.entities.iter_mut()`
(`refinement.rs` 115-142). -/
def entity_step (existing : List String) (st : EntSt) (e : CrtEntity) :
    CrtEntity × EntSt :=
  if needs_new_entity existing st.used e then
    let r := alloc_fresh "E" st.used st.next
    ({ e with id := r.1 },
     { used := st.used ++ [r.1], next := r.2,
       mapping := insertAL st.mapping e.id r.1 })
  else
    (e, { st with used := st.used ++ [e.id] })

/-- The whole entity pass. -/
def entity_pass (existing : List String) :
    List CrtEntity → EntSt → List CrtEntity × EntSt
  | [], st => ([], st)
  | e :: rest, st =>
    let r1 := entity_step existing st e
    let r2 := entity_pass existing rest r1.2
    (r1.1 :: r2.1, r2.2)

/-- State threaded through the link pass: `used_link_ids`,
`next_link_index`. -/
structure LinkSt where
  usedL : List String
  nextL : Nat
deriving Repr

/-- The `update_refs` closure (`refinement.rs` 193-210): map each
reference through `id_mapping` (falling back to itself), keep it only when
the image is a valid entity id contained in `known_ids`. -/
def update_refs (mapping : List (String × String)) (known : List String)
    (xs : List String) : List String :=
  (xs.map (fun s => (lookupAL mapping s).getD s)).filter
    (fun m => valid_entity_id m && known.contains m)

/-- Model of `if !list.contains(val) { list.push(val) }`. -/
def push_if_absent (xs : List String) (v : String) : List String :=
  if xs.contains v then xs else xs ++ [v]

/-- The `dedup` helper (`refinement.rs` 303-306): retain the first
occurrence of each value. -/
def dedup_seen (seen : List String) : List String → List String
  | [] => []
  | x :: rest =>
    if seen.contains x then dedup_seen seen rest
    else x :: dedup_seen (seen ++ [x]) rest

/-- Model of `dedup(&mut values)`. -/
def dedup (xs : List String) : List String := dedup_seen [] xs

/-- Model of `splitn(2, '.').nth(1)`: the remainder after the first dot, if any. -/
def after_first_dot : List Char → Option (List Char)
  | [] => none
  | '.' :: rest => some rest
  | _ :: rest => after_first_dot rest

/-- The `extra["text"]` rewriting (`refinement.rs` 264-269): when present,
rewrite it and remember the result as `text_for_line`. -/
def text_rewrite (mp : List (String × String)) (t : Option String) :
    Option String × Option String :=
  match t with
  | some t =>
    let u := String.mk (apply_mapping t.data mp)
    (some u, some u)
  | none => (none, none)

/-- The `from` / `to` handling (`refinement.rs` 216-258): rewrite the
scalar reference through the map; when the image is a valid known id keep
it and back-fill the corresponding list (`source_entities` or
`target_entities`) and `entities`; otherwise drop the reference. -/
def from_to_fill (mapping : List (String × String)) (known : List String)
    (ref : Option String) (primary secondary : List String) :
    Option String × List String × List String :=
  match ref with
  | none => (none, primary, secondary)
  | some f =>
    let f' := (lookupAL mapping f).getD f
    if valid_entity_id f' && known.contains f' then
      (some f', push_if_absent primary f', push_if_absent secondary f')
    else (none, primary, secondary)

/-- One iteration of `for link in restatement.links.iter_mut()`
(`refinement.rs` 155-291).  `reorder` fixes the iteration order of the
`id_mapping` `HashMap` used by the `apply_mapping` calls (Rust's hash
order is unspecified but constant within one run, hence one `reorder` for
all call sites). -/
def link_step (mapping : List (String × String)) (known : List String)
    (reorder : List (String × String) → List (String × String))
    (st : LinkSt) (link : CrtLink) : CrtLink × LinkSt :=
  -- id assignment (lines 156-191)
  let idSt :=
    if link.added then
      let r := alloc_fresh "L" st.usedL st.nextL
      (r.1, LinkSt.mk (st.usedL ++ [r.1]) r.2)
    else if !valid_link_id link.id then
      let r := alloc_fresh "L" st.usedL st.nextL
      (r.1, LinkSt.mk (st.usedL ++ [r.1, r.1]) r.2)
    else
      (link.id, LinkSt.mk (st.usedL ++ [link.id]) st.nextL)
  let id' := idSt.1
  -- reference rewriting (lines 212-214)
  let ents1 := update_refs mapping known link.entities
  let srcs1 := update_refs mapping known link.source_entities
  let tgts1 := update_refs mapping known link.target_entities
  -- `from` handling with back-fill (lines 216-236)
  let fromRes := from_to_fill mapping known link.fromRef srcs1 ents1
  -- `to` handling with back-fill (lines 238-258)
  let toRes := from_to_fill mapping known link.toRef tgts1 fromRes.2.2
  -- dedup (lines 260-262)
  let ents4 := dedup toRes.2.2
  let srcs3 := dedup fromRes.2.1
  let tgts3 := dedup toRes.2.1
  -- free-text rewriting (lines 264-290)
  let m := reorder mapping
  let textRes := text_rewrite m link.textExtra
  let line1 := link.line.map (fun l => String.mk (apply_mapping l.data m))
  let line2 :=
    match textRes.2 with
    | some t => some (id' ++ ". " ++ t)
    | none =>
      match line1 with
      | some l =>
        let suffix :=
          match after_first_dot l.data with
          | some s => String.mk (trimChars s)
          | none => String.mk (trimChars l.data)
        some (id' ++ ". " ++ suffix)
      | none => none
  let exprs' :=
    if link.expressions.isEmpty then link.expressions
    else link.expressions.map (fun e => String.mk (apply_mapping e.data m))
  ({ link with
      id := id'
      fromRef := fromRes.1
      toRef := toRes.1
      entities := ents4
      source_entities := srcs3
      target_entities := tgts3
      expressions := exprs'
      line := line2
      textExtra := textRes.1 },
   idSt.2)

/-- The whole link pass. -/
def link_pass (mapping : List (String × String)) (known : List String)
    (reorder : List (String × String) → List (String × String)) :
    List CrtLink → LinkSt → List CrtLink × LinkSt
  | [], st => ([], st)
  | l :: rest, st =>
    let r1 := link_step mapping known reorder st l
    let r2 := link_pass mapping known reorder rest r1.2
    (r1.1 :: r2.1, r2.2)

/-- The initial entity-pass state (`refinement.rs` 105-113). -/
def entInit (existing_entity_ids : List String) : EntSt :=
  { used := existing_entity_ids,
    next := seed_next 'E' existing_entity_ids,
    mapping := [] }

/-- Model of `sanitize_entities_and_links` with the `id_mapping` iteration order of
the `apply_mapping` call sites made explicit. -/
def sanitize_with
    (reorder : List (String × String) → List (String × String))
    (p : AgentRefinement)
    (existing_entity_ids existing_link_ids : List String) : AgentRefinement :=
  let r := entity_pass existing_entity_ids p.crt_restatement.entities
    (entInit existing_entity_ids)
  let known := r.2.used
  let stL : LinkSt :=
    { usedL := existing_link_ids, nextL := seed_next 'L' existing_link_ids }
  let rl := link_pass r.2.mapping known reorder p.crt_restatement.links stL
  ⟨⟨r.1, rl.1⟩⟩

/-- Model of `AgentRefinement::sanitize` (`refinement.rs` 86-97) with the canonical
(insertion-order) mapping iteration. -/
def sanitize (p : AgentRefinement)
    (existing_entity_ids existing_link_ids : List String) : AgentRefinement :=
  sanitize_with id p existing_entity_ids existing_link_ids

/-- The `known_ids` snapshot taken after the entity pass
(`refinement.rs` 144): the final legal entity-id universe. -/
def known_ids_of (p : AgentRefinement) (existing_entity_ids : List String) :
    List String :=
  (entity_pass existing_entity_ids p.crt_restatement.entities
    (entInit existing_entity_ids)).2.used

/-- The entity rewrite map produced by the entity pass. -/
def mapping_of (p : AgentRefinement) (existing_entity_ids : List String) :
    List (String × String) :=
  (entity_pass existing_entity_ids p.crt_restatement.entities
    (entInit existing_entity_ids)).2.mapping

/-! Section: concrete instances used by the theorems below. -/

/-- Spec §8 AND-Cartesian-expansion document. -/
def docAndExpansion : String := "E1. First\nE2. Second\nE3. Third\nL1. (E1 AND E2) → E3"

/-- Document whose entity `1` occurs as a source with negation `true` and
as a target with negation `false`. -/
def docMixedPolarity : String := "E1. a\nE2. b\nL1. NOT E1 → E2\nL2. E2 → E1"

/-- The tree `docMixedPolarity` parses to. -/
def crtMixedPolarity : CRT :=
  ⟨[(1, ⟨1, "a"⟩), (2, ⟨2, "b"⟩)],
   [(1, ⟨1, [.not (.entityRef 1), .entityRef 2]⟩),
    (2, ⟨2, [.entityRef 2, .entityRef 1]⟩)]⟩

/-- A document whose link references an entity declared on a later line. -/
def docForwardRef : String := "L1. E1 → E2\nE1. a\nE2. b"

/-- The tree `docForwardRef` parses to. -/
def crtForwardRef : CRT :=
  ⟨[(1, ⟨1, "a"⟩), (2, ⟨2, "b"⟩)],
   [(1, ⟨1, [.entityRef 1, .entityRef 2]⟩)]⟩

/-- Spec §8 id-collision proposal: an added entity reusing the existing id
`E1`, plus a link whose `expressions` and `line` mention `E1`. -/
def refCollision : AgentRefinement :=
  ⟨⟨[⟨"E1", "dup", true⟩],
    [⟨"L1", none, none, none, false, [], [], [], ["E1"],
      some "L1. E1 causes issues", none⟩]⟩⟩

/-- Two non-added proposed entities both carrying the existing id `E1`. -/
def refTwiceE1 : AgentRefinement :=
  ⟨⟨[⟨"E1", "a", false⟩, ⟨"E1", "b", false⟩], []⟩⟩

/-- A proposal producing the chained rewrite map `X ↦ E1, E1 ↦ E2`,
with a link whose `line` contains literal backslash-`b` sequences. -/
def refChained : AgentRefinement :=
  ⟨⟨[⟨"X", "x", false⟩, ⟨"E1", "y", false⟩],
    [⟨"L1", none, none, none, false, [], [], [], [],
      some "\\b\\bX\\b\\b", none⟩]⟩⟩

/-- Spec §8 dangling-reference proposal: the link references `E9`, which
is neither pre-existing nor introduced by the proposal. -/
def refDangling : AgentRefinement :=
  ⟨⟨[⟨"E2", "n", true⟩],
    [⟨"L1", none, none, none, false, ["E1", "E9", "E2"], ["E1"], ["E9"], [],
      none, none⟩]⟩⟩

/-- The link of `refDangling` after sanitization: the dangling `E9` is
dropped from every list, `E2` back-filled nowhere (it already sat in
`entities`). -/
def lnkDanglingOut : CrtLink :=
  ⟨"L1", none, none, none, false, ["E1", "E2"], ["E1"], [], [], none, none⟩

/-- A non-added link whose valid id `L1` collides with an existing link id. -/
def refKeptLink : AgentRefinement :=
  ⟨⟨[], [⟨"L1", none, none, none, false, [], [], [], [], none, none⟩]⟩⟩

/-- The single link of `refKeptLink`. -/
def lnkKept : CrtLink :=
  ⟨"L1", none, none, none, false, [], [], [], [], none, none⟩

/-- Absence of a backslash in every free-text field `sanitize` rewrites:
the `text` extra, the `line`, every string in `expressions`. -/
def link_bs_free (l : CrtLink) : Bool :=
  (match l.textExtra with
   | some t => !t.data.contains '\\'
   | none => true)
  && (match l.line with
      | some t => !t.data.contains '\\'
      | none => true)
  && l.expressions.all (fun t => !t.data.contains '\\')

/-! Section: lemmas about sorting and deduplication of leaves. -/

theorem leafKey_inj {a b : Leaf} (h : leafKey a = leafKey b) : a = b := by
  obtain ⟨i, n⟩ := a
  obtain ⟨j, m⟩ := b
  cases n <;> cases m <;> simp [leafKey] at h <;> simp [h] <;> omega

theorem leafLe_antisymm {a b : Leaf} (h1 : leafLe a b) (h2 : leafLe b a) :
    a = b :=
  leafKey_inj (Nat.le_antisymm h1 h2)

theorem mem_dedupAdj {a : Leaf} : ∀ {l : List Leaf}, a ∈ dedupAdj l ↔ a ∈ l
  | [] => Iff.rfl
  | [_] => Iff.rfl
  | x :: y :: rest => by
    by_cases h : x = y
    · subst h
      rw [dedupAdj, if_pos rfl, mem_dedupAdj (l := x :: rest)]
      simp only [List.mem_cons]
      tauto
    · rw [dedupAdj, if_neg h]
      simp only [List.mem_cons, mem_dedupAdj (l := y :: rest)]

theorem nodup_dedupAdj : ∀ {l : List Leaf}, List.Pairwise leafLe l →
    (dedupAdj l).Nodup
  | [], _ => List.nodup_nil
  | [x], _ => List.nodup_singleton x
  | x :: y :: rest, h => by
    obtain ⟨hx, htail⟩ := List.pairwise_cons.mp h
    by_cases hxy : x = y
    · rw [dedupAdj, if_pos hxy]
      exact nodup_dedupAdj htail
    · rw [dedupAdj, if_neg hxy]
      refine List.nodup_cons.mpr ⟨fun hmem => ?_, nodup_dedupAdj htail⟩
      rcases List.mem_cons.mp (mem_dedupAdj.mp hmem) with h1 | h1
      · exact hxy h1
      · obtain ⟨hy, _⟩ := List.pairwise_cons.mp htail
        exact hxy (leafLe_antisymm (hx y (List.mem_cons_self y rest)) (hy x h1) ▸ rfl)

theorem mem_sortDedup {a : Leaf} {l : List Leaf} :
    a ∈ sortDedup l ↔ a ∈ l := by
  rw [sortDedup, mem_dedupAdj]
  exact (List.perm_insertionSort leafLe l).mem_iff

theorem nodup_sortDedup {l : List Leaf} : (sortDedup l).Nodup :=
  nodup_dedupAdj (List.sorted_insertionSort leafLe l)

/-! Section: flattening claims. -/

/-- C7: flattening cancels a double negation: for every expression `e`,
`Not(Not(e))` flattens to the same leaf sequence as `e`; in particular
`Not(Not(EntityRef(5)))` yields exactly the single leaf `(5, false)`,
identical to flattening `EntityRef(5)` directly. -/
theorem claim_C7 :
    (∀ e : Expr, flatten_expr (.not (.not e)) = flatten_expr e)
    ∧ flatten_expr (.not (.not (.entityRef 5))) = [⟨5, false⟩]
    ∧ flatten_expr (.not (.not (.entityRef 5))) = flatten_expr (.entityRef 5) :=
  ⟨fun _ => rfl, rfl, rfl⟩

theorem pairEdgeOf_inj_right {rel : String} {a b1 b2 : Leaf}
    (h : pairEdgeOf rel a b1 = pairEdgeOf rel a b2) : b1 = b2 := by
  obtain ⟨i1, n1⟩ := b1
  obtain ⟨i2, n2⟩ := b2
  simp only [pairEdgeOf, Edge.mk.injEq, NodeId.ent.injEq] at h
  simp [h.2.1, h.2.2.2.2]

theorem pairEdgeOf_source_eq {rel : String} {a1 a2 b1 b2 : Leaf}
    (h : pairEdgeOf rel a1 b1 = pairEdgeOf rel a2 b2) : a1 = a2 := by
  obtain ⟨i1, n1⟩ := a1
  obtain ⟨i2, n2⟩ := a2
  simp only [pairEdgeOf, Edge.mk.injEq, NodeId.ent.injEq] at h
  simp [h.1, h.2.2.2.1]

theorem mem_edgesForPair {s t : Expr} {e : Edge} :
    e ∈ edgesForPair s t ↔
      ∃ a ∈ sortDedup (flatten_expr s), ∃ b ∈ sortDedup (flatten_expr t),
        pairEdgeOf (if isAnd s then "AND" else "THEN") a b = e := by
  simp [edgesForPair, List.mem_flatMap, List.mem_map]

theorem nodup_edgesForPair {s t : Expr} : (edgesForPair s t).Nodup := by
  rw [edgesForPair]
  refine List.nodup_flatMap.mpr ⟨fun a _ => ?_, ?_⟩
  · exact List.Nodup.map (fun b1 b2 h => pairEdgeOf_inj_right h) nodup_sortDedup
  · refine List.Pairwise.imp ?_ nodup_sortDedup
    intro a1 a2 hne e he1 he2
    obtain ⟨b1, _, hb1⟩ := List.mem_map.mp he1
    obtain ⟨b2, _, hb2⟩ := List.mem_map.mp he2
    exact hne (pairEdgeOf_source_eq (hb1.trans hb2.symm))

/-- C6: for every adjacent pair, the emitted edges are exactly the
Cartesian pairs of the two deduplicated leaf sets (each exactly once, by
`Nodup`), each leaf carrying its own negation flag; the relation is `AND`
precisely when the source segment's root is an `And` node, `THEN`
otherwise; and `L1. (E1 AND E2) → E3` flattens to exactly the two edges
`E1→E3`, `E2→E3`, both relation `AND`. -/
theorem claim_C6 :
    (∀ s t : Expr,
      (∀ e : Edge, e ∈ edgesForPair s t ↔
        ∃ a ∈ sortDedup (flatten_expr s), ∃ b ∈ sortDedup (flatten_expr t),
          pairEdgeOf (if isAnd s then "AND" else "THEN") a b = e)
      ∧ (edgesForPair s t).Nodup
      ∧ (∀ e ∈ edgesForPair s t,
          (e.rel = "AND" ↔ isAnd s = true) ∧ (e.rel = "THEN" ↔ isAnd s = false)))
    ∧ (parse_crt docAndExpansion).map
        (fun c => (flattenCrt c).edges.filter (fun e => e.rel != "IF"))
      = .ok [pairEdgeOf "AND" ⟨1, false⟩ ⟨3, false⟩,
             pairEdgeOf "AND" ⟨2, false⟩ ⟨3, false⟩] := by
  refine ⟨fun s t => ⟨fun _ => mem_edgesForPair, nodup_edgesForPair, ?_⟩, rfl⟩
  intro e he
  obtain ⟨a, _, b, _, rfl⟩ := mem_edgesForPair.mp he
  cases h : isAnd s <;> simp [pairEdgeOf, h]

/-- C6 witness: the general part instantiated on the claim's example pair,
discharging the membership hypothesis at a concrete edge. -/
theorem claim_C6_witness :
    (pairEdgeOf "AND" ⟨1, false⟩ ⟨3, false⟩).rel = "AND"
      ↔ isAnd (.and [.entityRef 1, .entityRef 2]) = true :=
  ((claim_C6.1 (.and [.entityRef 1, .entityRef 2]) (.entityRef 3)).2.2
    (pairEdgeOf "AND" ⟨1, false⟩ ⟨3, false⟩) (by decide)).1

/-! Section: start-edge synthesis (claim C2). -/

theorem ifEdge_inj {l1 l2 : Leaf} (h : ifEdge l1 = ifEdge l2) : l1 = l2 := by
  obtain ⟨i1, n1⟩ := l1
  obtain ⟨i2, n2⟩ := l2
  simp only [ifEdge, Edge.mk.injEq, NodeId.ent.injEq] at h
  simp [h.2.1, h.2.2.2.2]

theorem mem_ifEdges {c : CRT} {e : Edge} :
    e ∈ ifEdges c ↔
      ∃ l : Leaf, l ∈ sortDedup (sourceLeavesList c)
        ∧ l ∉ targetLeavesList c ∧ ifEdge l = e := by
  simp only [ifEdges, List.mem_filterMap]
  constructor
  · rintro ⟨a, ha, hfa⟩
    by_cases h : a ∈ targetLeavesList c
    · simp [h] at hfa
    · simp only [h, if_false] at hfa
      exact ⟨a, ha, h, Option.some.inj hfa⟩
  · rintro ⟨l, hl, hnt, rfl⟩
    exact ⟨l, hl, by simp [hnt]⟩

theorem nodup_ifEdges {c : CRT} : (ifEdges c).Nodup := by
  refine List.Nodup.filterMap ?_ nodup_sortDedup
  intro a a' b hb hb'
  by_cases h : a ∈ targetLeavesList c
  · simp [h] at hb
  · by_cases h' : a' ∈ targetLeavesList c
    · simp [h'] at hb'
    · simp only [h, h', if_false, Option.mem_def, Option.some.injEq] at hb hb'
      exact ifEdge_inj (hb.trans hb'.symm)

theorem pairEdges_shape {c : CRT} {e : Edge} (h : e ∈ pairEdges c) :
    e.source ≠ .start ∧ e.rel ≠ "IF" := by
  simp only [pairEdges, List.mem_flatMap] at h
  obtain ⟨l, _, p, _, he⟩ := h
  obtain ⟨a, _, b, _, rfl⟩ := mem_edgesForPair.mp he
  constructor
  · simp [pairEdgeOf]
  · cases hs : isAnd p.1 <;> simp [pairEdgeOf, hs]

/-- C2 as amended: start-edge synthesis compares *leaves* — (entity id,
negation) pairs — not bare entity ids.  For every tree, a leaf receives
exactly one `IF` start edge iff it occurs as a source leaf of some window
and never as a target leaf; every `IF` edge originates at the start node
with an un-negated source side and carries such a leaf's negation on the
target side. -/
theorem claim_C2_amended (c : CRT) :
    (∀ l : Leaf, List.count (ifEdge l) (flattenCrt c).edges =
        if l ∈ sourceLeavesList c ∧ l ∉ targetLeavesList c then 1 else 0)
    ∧ (∀ e ∈ (flattenCrt c).edges, e.rel = "IF" →
        e.source = .start ∧ e.source_negated = false ∧
        ∃ l : Leaf, ifEdge l = e
          ∧ l ∈ sourceLeavesList c ∧ l ∉ targetLeavesList c) := by
  constructor
  · intro l
    have hedges : (flattenCrt c).edges = pairEdges c ++ ifEdges c := rfl
    rw [hedges, List.count_append]
    have hp : List.count (ifEdge l) (pairEdges c) = 0 := by
      refine List.count_eq_zero_of_not_mem fun hmem => ?_
      exact (pairEdges_shape hmem).1 rfl
    rw [hp, Nat.zero_add]
    by_cases hc : l ∈ sourceLeavesList c ∧ l ∉ targetLeavesList c
    · rw [if_pos hc]
      refine List.count_eq_one_of_mem nodup_ifEdges ?_
      exact mem_ifEdges.mpr ⟨l, mem_sortDedup.mpr hc.1, hc.2, rfl⟩
    · rw [if_neg hc]
      refine List.count_eq_zero_of_not_mem fun hmem => ?_
      obtain ⟨l', hl', hnt, heq⟩ := mem_ifEdges.mp hmem
      cases ifEdge_inj heq
      exact hc ⟨mem_sortDedup.mp hl', hnt⟩
  · intro e he hrel
    have hedges : (flattenCrt c).edges = pairEdges c ++ ifEdges c := rfl
    rw [hedges, List.mem_append] at he
    rcases he with he | he
    · exact absurd hrel (pairEdges_shape he).2
    · obtain ⟨l, hl, hnt, rfl⟩ := mem_ifEdges.mp he
      exact ⟨rfl, rfl, l, rfl, mem_sortDedup.mp hl, hnt⟩

/-- C2 counterexample: in `docMixedPolarity`, entity `1` occurs as the
target of a window edge (`L2. E2 → E1`) and nevertheless receives a
synthetic `IF` start edge (its source occurrence `NOT E1` has the other
polarity), refuting the claim's "an entity id that appears as some link's
target never receives a synthetic start edge". -/
theorem claim_C2_counterexample :
    parse_crt docMixedPolarity = .ok crtMixedPolarity
    ∧ ((flattenCrt crtMixedPolarity).edges.any
        fun e => (e.rel != "IF") && (e.target == .ent 1)) = true
    ∧ ((flattenCrt crtMixedPolarity).edges.any
        fun e => (e.rel == "IF") && (e.target == .ent 1)) = true :=
  ⟨rfl, rfl, rfl⟩

/-- C2 witness: the amended count statement evaluated on the parsed
mixed-polarity tree. -/
theorem claim_C2_amended_witness :
    List.count (ifEdge ⟨1, true⟩) (flattenCrt crtMixedPolarity).edges = 1 := by
  rw [(claim_C2_amended crtMixedPolarity).1 ⟨1, true⟩]
  decide

/-! Section: document-parser claims (C5, C9). -/

theorem validate_refs_ok {ents : List (Nat × Entity)} :
    ∀ {ls : List (Nat × Link)}, validate_refs ents ls = .ok () →
      ∀ p ∈ ls, ∀ id ∈ p.2.segments.flatMap collect_refs,
        containsKey ents id = true
  | [], _, p, hp => absurd hp (List.not_mem_nil p)
  | (k, link) :: rest, h, p, hp => by
    rw [validate_refs] at h
    cases hf : (link.segments.flatMap collect_refs).find?
        (fun id => !containsKey ents id) with
    | some i => rw [hf] at h; exact absurd h (by simp)
    | none =>
      rw [hf] at h
      rcases List.mem_cons.mp hp with rfl | hp'
      · intro id hid
        have := List.find?_eq_none.mp hf id hid
        simpa using this
      · exact validate_refs_ok h p hp'

theorem parse_crt_core_ok_validate {cs : List Char} {c : CRT}
    (h : parse_crt_core cs = .ok c) :
    validate_refs c.entities c.links = .ok () := by
  unfold parse_crt_core at h
  rcases hd : parse_doc_lines (splitOnChar '\n' cs) ⟨[], []⟩ with e | crt <;>
      rw [hd] at h <;> dsimp only at h
  · exact Except.noConfusion h
  · rcases hv : validate_refs crt.entities crt.links with e | u <;>
        rw [hv] at h <;> dsimp only at h
    · exact Except.noConfusion h
    · cases Except.ok.inj h
      cases u
      exact hv

/-- C5: the referential-integrity pass runs once, after all lines: a link
may reference an entity declared later (`docForwardRef` parses), every
successful parse has all references defined, and the spec's example
document fails with `UndefinedEntityReference(1, 2)`. -/
theorem claim_C5 :
    (∀ (s : String) (c : CRT), parse_crt s = .ok c →
      ∀ p ∈ c.links, ∀ id ∈ p.2.segments.flatMap collect_refs,
        containsKey c.entities id = true)
    ∧ parse_crt docForwardRef = .ok crtForwardRef
    ∧ parse_crt "E1. a\nL1. E1 → E2" = .error (.undefinedEntityReference 1 2) := by
  refine ⟨?_, rfl, rfl⟩
  intro s c h
  exact validate_refs_ok (parse_crt_core_ok_validate h)

/-- C5 witness: the general soundness part applied to the forward-reference
document. -/
theorem claim_C5_witness :
    containsKey crtForwardRef.entities 2 = true :=
  claim_C5.1 docForwardRef crtForwardRef rfl
    (1, ⟨1, [.entityRef 1, .entityRef 2]⟩) (List.mem_singleton.mpr rfl)
    2 (by decide)

/-- C9: `parse_crt` appends the missing final newline itself, so an input
without a trailing newline parses exactly like the same input with one
appended. -/
theorem claim_C9 (s : String) (h : s.data.getLast? ≠ some '\n') :
    parse_crt s = parse_crt (s ++ "\n") := by
  show parse_crt_core (if s.data.getLast? = some '\n' then s.data else s.data ++ ['\n'])
    = parse_crt_core (if (s ++ "\n").data.getLast? = some '\n'
        then (s ++ "\n").data else (s ++ "\n").data ++ ['\n'])
  rw [if_neg h, String.data_append]
  rw [show ("\n" : String).data = ['\n'] from rfl]
  rw [if_pos (List.getLast?_concat _)]

/-- C9 witness. -/
theorem claim_C9_witness :
    parse_crt "E1. a" = parse_crt ("E1. a" ++ "\n") :=
  claim_C9 "E1. a" (by decide)

/-! Section: free-text rewriting (claims C1 and C8).  The patterns built by
`apply_mapping` all start with a literal backslash, so they can never match
inside a text that contains no backslash. -/

theorem replace_go_no_bs : ∀ (fuel : Nat) (pt rep text : List Char),
    '\\' ∉ text → replace_go fuel ('\\' :: pt) rep text = text
  | 0, _, _, _, _ => rfl
  | _ + 1, _, _, [], _ => rfl
  | fuel + 1, pt, rep, c :: rest, h => by
    have hc : ('\\' : Char) ≠ c := fun he => h (he ▸ List.mem_cons_self c rest)
    have hp : (('\\' :: pt).isPrefixOf (c :: rest)) = false := by
      simp only [List.isPrefixOf, Bool.and_eq_false_iff, beq_eq_false_iff_ne, ne_eq]
      exact Or.inl hc
    rw [replace_go, hp, Bool.and_false, if_neg (by simp)]
    exact congrArg (c :: ·)
      (replace_go_no_bs fuel pt rep rest fun hm => h (List.mem_cons.mpr (Or.inr hm)))

theorem apply_mapping_cons (o n : String) (rest : List (String × String))
    (text : List Char) :
    apply_mapping text ((o, n) :: rest)
      = apply_mapping (replace_all (wordPat o.data) n.data text) rest := rfl

theorem apply_mapping_no_bs : ∀ (m : List (String × String)) (text : List Char),
    '\\' ∉ text → apply_mapping text m = text
  | [], _, _ => rfl
  | (o, n) :: rest, text, h => by
    rw [apply_mapping_cons]
    have h1 : replace_all (wordPat o.data) n.data text = text :=
      replace_go_no_bs _ _ _ _ h
    rw [h1]
    exact apply_mapping_no_bs rest text h

theorem mk_data_self (s : String) : String.mk s.data = s := rfl

theorem mk_apply_mapping_self {t : String} (h : '\\' ∉ t.data)
    (mp : List (String × String)) : String.mk (apply_mapping t.data mp) = t := by
  rw [apply_mapping_no_bs mp t.data h]

theorem map_apply_mapping_self : ∀ (xs : List String),
    (∀ t ∈ xs, '\\' ∉ t.data) → ∀ mp : List (String × String),
      xs.map (fun e => String.mk (apply_mapping e.data mp)) = xs
  | [], _, _ => rfl
  | x :: rest, h, mp => by
    rw [List.map_cons, mk_apply_mapping_self (h x (List.mem_cons_self x rest)) mp,
      map_apply_mapping_self rest (fun t ht => h t (List.mem_cons.mpr (Or.inr ht))) mp]

/-- C1 is a code bug: the raw string `r"\\b{}\\b"` in `apply_mapping`
produces a regex matching the literal characters backslash-`b` around the
id rather than word boundaries, so the documented whole-token substitution
never fires on ordinary free text.  First conjunct: on any text without a
backslash the substitution is the identity, for every single-pair map.
Remaining conjuncts evaluate `sanitize` on the spec §8 collision example:
the entity is remapped `E1 ↦ E3`, yet the link's `expressions` entry and
`line` still read `E1`, where the claim requires `E3`. -/
theorem claim_C1 :
    (∀ (o n : String) (text : List Char), '\\' ∉ text →
      apply_mapping text [(o, n)] = text)
    ∧ mapping_of refCollision ["E1", "E2"] = [("E1", "E3")]
    ∧ (sanitize refCollision ["E1", "E2"] []).crt_restatement.links.map
        CrtLink.expressions = [["E1"]]
    ∧ (sanitize refCollision ["E1", "E2"] []).crt_restatement.links.map
        CrtLink.line = [some "L1. E1 causes issues"] :=
  ⟨fun _ _ text h => apply_mapping_no_bs _ text h, rfl, rfl, rfl⟩

/-- C1 witness: the claim's own boundary example — by the claim, `E1`
(but not `E1` inside `E10`) must become `E3`; the code changes nothing. -/
theorem claim_C1_witness :
    apply_mapping "E1 and E10 hold".data [("E1", "E3")] = "E1 and E10 hold".data :=
  claim_C1.1 "E1" "E3" _ (by decide)

theorem link_bs_free_spec {l : CrtLink} (h : link_bs_free l = true) :
    (∀ t, l.textExtra = some t → '\\' ∉ t.data)
    ∧ (∀ t, l.line = some t → '\\' ∉ t.data)
    ∧ (∀ t ∈ l.expressions, '\\' ∉ t.data) := by
  simp only [link_bs_free, Bool.and_eq_true, List.all_eq_true] at h
  obtain ⟨⟨h1, h2⟩, h3⟩ := h
  refine ⟨fun t ht => ?_, fun t ht => ?_, fun t ht => ?_⟩
  · rw [ht] at h1; simpa using h1
  · rw [ht] at h2; simpa using h2
  · simpa using h3 t ht

theorem text_rewrite_self {t : Option String}
    (h : ∀ x, t = some x → '\\' ∉ x.data) (mp : List (String × String)) :
    text_rewrite mp t = (t, t) := by
  cases t with
  | none => rfl
  | some x => simp [text_rewrite, mk_apply_mapping_self (h x rfl) mp]

theorem line_map_self {t : Option String}
    (h : ∀ x, t = some x → '\\' ∉ x.data) (mp : List (String × String)) :
    t.map (fun x => String.mk (apply_mapping x.data mp)) = t := by
  cases t with
  | none => rfl
  | some x => simp [mk_apply_mapping_self (h x rfl) mp]

theorem link_step_reorder (mapping : List (String × String))
    (known : List String)
    (r : List (String × String) → List (String × String))
    (st : LinkSt) (l : CrtLink) (h : link_bs_free l = true) :
    link_step mapping known r st l = link_step mapping known id st l := by
  obtain ⟨h1, h2, h3⟩ := link_bs_free_spec h
  simp only [link_step, id_eq,
    text_rewrite_self h1 (r mapping), text_rewrite_self h1 mapping,
    line_map_self h2 (r mapping), line_map_self h2 mapping,
    map_apply_mapping_self l.expressions h3 (r mapping),
    map_apply_mapping_self l.expressions h3 mapping]

theorem link_pass_reorder (mapping : List (String × String))
    (known : List String)
    (r : List (String × String) → List (String × String)) :
    ∀ (ls : List CrtLink) (st : LinkSt),
      (∀ l ∈ ls, link_bs_free l = true) →
      link_pass mapping known r ls st = link_pass mapping known id ls st
  | [], _, _ => rfl
  | l :: rest, st, h => by
    rw [link_pass, link_pass,
      link_step_reorder mapping known r st l (h l (List.mem_cons_self l rest)),
      link_pass_reorder mapping known r rest _
        (fun x hx => h x (List.mem_cons.mpr (Or.inr hx)))]

/-- C8 as amended: `sanitize` is a pure function of the proposal, the two
id sets and the iteration order of the internal `id_mapping` `HashMap`
(observable only in `apply_mapping`); whenever no free-text field of the
proposal contains a backslash character, the output does not depend on
that internal order at all, because the rewrite patterns each contain
literal backslashes and thus never match. -/
theorem claim_C8_amended
    (r1 r2 : List (String × String) → List (String × String))
    (p : AgentRefinement) (eE eL : List String)
    (h : ∀ l ∈ p.crt_restatement.links, link_bs_free l = true) :
    sanitize_with r1 p eE eL = sanitize_with r2 p eE eL := by
  simp only [sanitize_with]
  rw [link_pass_reorder _ _ r1 _ _ h, link_pass_reorder _ _ r2 _ _ h]

/-- C8 counterexample: with the chained rewrite map `X ↦ E1, E1 ↦ E2` and
a `line` containing literal backslash-`b` sequences, applying the map in
the two HashMap iteration orders (insertion order vs its reverse — a
permutation of the same pairs, second conjunct) yields different sanitized
output, so the output of a run depends on the internal, unspecified hash
iteration order, refuting byte-identical output across runs. -/
theorem claim_C8_counterexample :
    sanitize_with id refChained [] [] ≠ sanitize_with List.reverse refChained [] []
    ∧ (List.reverse (mapping_of refChained [])).Perm (mapping_of refChained []) :=
  ⟨by decide, (mapping_of refChained []).reverse_perm⟩

/-- C8 witness: a backslash-free proposal sanitized under two different
internal orders gives identical output. -/
theorem claim_C8_amended_witness :
    sanitize_with id refCollision ["E1", "E2"] []
      = sanitize_with List.reverse refCollision ["E1", "E2"] [] :=
  claim_C8_amended id List.reverse refCollision ["E1", "E2"] [] (by decide)

/-! Section: link-id stability (claim C10). -/

theorem link_step_keeps_id (mapping : List (String × String))
    (known : List String)
    (r : List (String × String) → List (String × String))
    (st : LinkSt) (l : CrtLink)
    (ha : l.added = false) (hv : valid_link_id l.id = true) :
    (link_step mapping known r st l).1.id = l.id := by
  simp [link_step, ha, hv]

theorem link_pass_keeps_id (mapping : List (String × String))
    (known : List String)
    (r : List (String × String) → List (String × String)) :
    ∀ (ls : List CrtLink) (st : LinkSt) (i : Nat) (l : CrtLink),
      ls[i]? = some l → l.added = false → valid_link_id l.id = true →
      ∃ l', (link_pass mapping known r ls st).1[i]? = some l' ∧ l'.id = l.id
  | [], _, i, _, h, _, _ => by simp at h
  | x :: rest, st, 0, l, h, ha, hv => by
    rw [List.getElem?_cons_zero] at h
    cases Option.some.inj h
    exact ⟨(link_step mapping known r st x).1, by simp [link_pass],
      link_step_keeps_id mapping known r st x ha hv⟩
  | x :: rest, st, i + 1, l, h, ha, hv => by
    rw [List.getElem?_cons_succ] at h
    obtain ⟨l', h1, h2⟩ := link_pass_keeps_id mapping known r rest
      (link_step mapping known r st x).2 i l h ha hv
    exact ⟨l', by rw [link_pass]; simpa using h1, h2⟩

/-- C10: a non-added link with a strict `L<digits>` id keeps that id
through `sanitize`, even when it collides with an existing link id or with
an earlier link of the proposal — the non-added branch performs no
collision check (`refinement.rs` 173-191); the collision case is evaluated
concretely in the third conjunct (existing link ids contain `L1`). -/
theorem claim_C10 :
    (∀ (mapping : List (String × String)) (known : List String)
        (r : List (String × String) → List (String × String))
        (st : LinkSt) (l : CrtLink),
      l.added = false → valid_link_id l.id = true →
      (link_step mapping known r st l).1.id = l.id)
    ∧ (∀ (mapping : List (String × String)) (known : List String)
        (r : List (String × String) → List (String × String))
        (ls : List CrtLink) (st : LinkSt) (i : Nat) (l : CrtLink),
        ls[i]? = some l → l.added = false → valid_link_id l.id = true →
        ∃ l', (link_pass mapping known r ls st).1[i]? = some l' ∧ l'.id = l.id)
    ∧ (sanitize refKeptLink [] ["L1"]).crt_restatement.links.map CrtLink.id
        = ["L1"] :=
  ⟨link_step_keeps_id, link_pass_keeps_id, rfl⟩

/-- C10 witness: the id `L1` is kept although the state's used set already
contains `L1`. -/
theorem claim_C10_witness :
    (link_step [] [] id ⟨["L1"], 2⟩ lnkKept).1.id = "L1" :=
  claim_C10.1 [] [] id ⟨["L1"], 2⟩ lnkKept rfl (by decide)

/-! Section: dangling-reference pruning (claim C4). -/

theorem mem_update_refs {mapping : List (String × String)}
    {known xs : List String} {x : String}
    (h : x ∈ update_refs mapping known xs) : x ∈ known := by
  simp only [update_refs, List.mem_filter, Bool.and_eq_true] at h
  simpa using h.2.2

theorem mem_push_if_absent {xs : List String} {v x : String}
    (h : x ∈ push_if_absent xs v) : x ∈ xs ∨ x = v := by
  unfold push_if_absent at h
  by_cases hc : xs.contains v = true
  · rw [if_pos hc] at h
    exact Or.inl h
  · rw [if_neg hc] at h
    rcases List.mem_append.mp h with h1 | h1
    · exact Or.inl h1
    · exact Or.inr (List.mem_singleton.mp h1)

theorem mem_dedup_seen : ∀ (seen xs : List String) (x : String),
    x ∈ dedup_seen seen xs → x ∈ xs
  | _, [], x, h => absurd h (List.not_mem_nil x)
  | seen, y :: rest, x, h => by
    rw [dedup_seen] at h
    by_cases hc : seen.contains y = true
    · rw [if_pos hc] at h
      exact List.mem_cons.mpr (Or.inr (mem_dedup_seen seen rest x h))
    · rw [if_neg hc] at h
      rcases List.mem_cons.mp h with rfl | h1
      · exact List.mem_cons_self x rest
      · exact List.mem_cons.mpr (Or.inr (mem_dedup_seen _ rest x h1))

theorem mem_from_to_fill {mapping : List (String × String)}
    {known : List String} {o : Option String} {primary secondary : List String}
    (hp : ∀ x ∈ primary, x ∈ known) (hs : ∀ x ∈ secondary, x ∈ known) :
    (∀ x ∈ (from_to_fill mapping known o primary secondary).2.1, x ∈ known)
    ∧ (∀ x ∈ (from_to_fill mapping known o primary secondary).2.2, x ∈ known)
    ∧ (∀ x, (from_to_fill mapping known o primary secondary).1 = some x →
        x ∈ known) := by
  cases o with
  | none => exact ⟨hp, hs, fun x hx => by simp [from_to_fill] at hx⟩
  | some f =>
    simp only [from_to_fill]
    by_cases hc : (valid_entity_id ((lookupAL mapping f).getD f)
        && known.contains ((lookupAL mapping f).getD f)) = true
    · rw [if_pos hc]
      have hk : (lookupAL mapping f).getD f ∈ known := by
        have := (Bool.and_eq_true _ _).mp hc
        simpa using this.2
      refine ⟨fun x hx => ?_, fun x hx => ?_, fun x hx => ?_⟩
      · rcases mem_push_if_absent hx with h1 | rfl
        · exact hp x h1
        · exact hk
      · rcases mem_push_if_absent hx with h1 | rfl
        · exact hs x h1
        · exact hk
      · cases Option.some.inj hx
        exact hk
    · rw [if_neg hc]
      exact ⟨hp, hs, fun x hx => by simp at hx⟩

theorem link_step_refs_known (mapping : List (String × String))
    (known : List String)
    (r : List (String × String) → List (String × String))
    (st : LinkSt) (l : CrtLink) :
    (∀ x ∈ (link_step mapping known r st l).1.entities, x ∈ known)
    ∧ (∀ x ∈ (link_step mapping known r st l).1.source_entities, x ∈ known)
    ∧ (∀ x ∈ (link_step mapping known r st l).1.target_entities, x ∈ known)
    ∧ (∀ x, (link_step mapping known r st l).1.fromRef = some x → x ∈ known)
    ∧ (∀ x, (link_step mapping known r st l).1.toRef = some x → x ∈ known) := by
  have hents1 : ∀ x ∈ update_refs mapping known l.entities, x ∈ known :=
    fun _ hx => mem_update_refs hx
  have hsrcs1 : ∀ x ∈ update_refs mapping known l.source_entities, x ∈ known :=
    fun _ hx => mem_update_refs hx
  have htgts1 : ∀ x ∈ update_refs mapping known l.target_entities, x ∈ known :=
    fun _ hx => mem_update_refs hx
  obtain ⟨hfp, hfs, hff⟩ := mem_from_to_fill (o := l.fromRef) hsrcs1 hents1
  obtain ⟨htp, hts, htf⟩ := mem_from_to_fill (o := l.toRef) htgts1 hfs
  refine ⟨fun x hx => ?_, fun x hx => ?_, fun x hx => ?_,
    fun x hx => ?_, fun x hx => ?_⟩ <;> simp only [link_step] at hx
  · exact hts x (mem_dedup_seen [] _ x hx)
  · exact hfp x (mem_dedup_seen [] _ x hx)
  · exact htp x (mem_dedup_seen [] _ x hx)
  · exact hff x hx
  · exact htf x hx

theorem link_pass_refs_known (mapping : List (String × String))
    (known : List String)
    (r : List (String × String) → List (String × String)) :
    ∀ (ls : List CrtLink) (st : LinkSt) (l' : CrtLink),
      l' ∈ (link_pass mapping known r ls st).1 →
      (∀ x ∈ l'.entities, x ∈ known)
      ∧ (∀ x ∈ l'.source_entities, x ∈ known)
      ∧ (∀ x ∈ l'.target_entities, x ∈ known)
      ∧ (∀ x, l'.fromRef = some x → x ∈ known)
      ∧ (∀ x, l'.toRef = some x → x ∈ known)
  | [], _, l', h => absurd h (by simp [link_pass])
  | l :: rest, st, l', h => by
    rw [link_pass] at h
    rcases List.mem_cons.mp h with rfl | h1
    · exact link_step_refs_known mapping known r st l
    · exact link_pass_refs_known mapping known r rest
        (link_step mapping known r st l).2 l' h1

/-- C4: `sanitize` is total by construction (the embedding returns a plain
value and the Rust has no failing path), and after sanitization every
reference left in a link — the three lists and the scalar `from`/`to` —
lies in `known_ids` (pre-existing ids plus the proposal's final entity
ids); anything else was dropped.  The concrete conjuncts evaluate the
spec's dangling-reference example: `E9` is removed from `entities` and
`target_entities` rather than failing or being replaced. -/
theorem claim_C4 :
    (∀ (p : AgentRefinement) (eE eL : List String),
      ∀ l ∈ (sanitize p eE eL).crt_restatement.links,
        (∀ x ∈ l.entities, x ∈ known_ids_of p eE)
        ∧ (∀ x ∈ l.source_entities, x ∈ known_ids_of p eE)
        ∧ (∀ x ∈ l.target_entities, x ∈ known_ids_of p eE)
        ∧ (∀ x, l.fromRef = some x → x ∈ known_ids_of p eE)
        ∧ (∀ x, l.toRef = some x → x ∈ known_ids_of p eE))
    ∧ (sanitize refDangling ["E1"] []).crt_restatement.links.map
        CrtLink.entities = [["E1", "E2"]]
    ∧ (sanitize refDangling ["E1"] []).crt_restatement.links.map
        CrtLink.target_entities = [[]] := by
  refine ⟨?_, rfl, rfl⟩
  intro p eE eL l hl
  exact link_pass_refs_known _ _ id _ _ l hl

/-- C4 witness: the kept reference `E1` of the sanitized dangling-example
link is indeed a known id. -/
theorem claim_C4_witness :
    "E1" ∈ known_ids_of refDangling ["E1"] :=
  (claim_C4.1 refDangling ["E1"] [] lnkDanglingOut (by decide)).1 "E1" (by decide)

/-! Section: fresh-id allocation (claim C3).  Decimal rendering is
injective, so among `used.length + 1` successive candidates at least one
is unused and the allocation loop's fuel bound is never reached. -/

theorem digitsVal_append (ds : List Char) (c : Char) :
    digitsVal (ds ++ [c]) = 10 * digitsVal ds + (c.toNat - 48) := by
  simp [digitsVal, List.foldl_append]

theorem digitChar_val : ∀ n : Nat, n < 10 → (Nat.digitChar n).toNat - 48 = n := by
  intro n h
  interval_cases n <;> rfl

theorem nat_digits_val : ∀ (fuel n : Nat), n < 10 ^ fuel →
    digitsVal (nat_digits_go fuel n) = n
  | 0, n, h => by
    have hn : n = 0 := by simpa using h
    simp [hn, nat_digits_go, digitsVal]
  | fuel + 1, n, h => by
    rw [nat_digits_go]
    by_cases h10 : n < 10
    · rw [if_pos h10]
      have := digitChar_val n h10
      simp [digitsVal]
      omega
    · rw [if_neg h10, digitsVal_append]
      have hdiv : n / 10 < 10 ^ fuel := by
        rw [Nat.div_lt_iff_lt_mul (by norm_num)]
        calc n < 10 ^ (fuel + 1) := h
          _ = 10 ^ fuel * 10 := by ring
      rw [nat_digits_val fuel (n / 10) hdiv,
        digitChar_val (n % 10) (Nat.mod_lt n (by norm_num))]
      omega

theorem natToStr_inj {a b : Nat} (h : natToStr a = natToStr b) : a = b := by
  have hd : nat_digits_go (a + 1) a = nat_digits_go (b + 1) b := by
    injection h
  have ha : a < 10 ^ (a + 1) :=
    lt_of_lt_of_le (Nat.lt_pow_self (by norm_num) a)
      (Nat.pow_le_pow_right (by norm_num) (by omega))
  have hb : b < 10 ^ (b + 1) :=
    lt_of_lt_of_le (Nat.lt_pow_self (by norm_num) b)
      (Nat.pow_le_pow_right (by norm_num) (by omega))
  calc a = digitsVal (nat_digits_go (a + 1) a) := (nat_digits_val _ _ ha).symm
    _ = digitsVal (nat_digits_go (b + 1) b) := by rw [hd]
    _ = b := nat_digits_val _ _ hb

theorem string_data_inj {s t : String} (h : s.data = t.data) : s = t := by
  cases s
  cases t
  exact congrArg String.mk h

theorem cand_inj {pre : String} {a b : Nat} (h : cand pre a = cand pre b) :
    a = b := by
  have hd : (natToStr a).data = (natToStr b).data := by
    have h1 := congrArg String.data h
    rw [cand, cand, String.data_append, String.data_append] at h1
    exact List.append_cancel_left h1
  exact natToStr_inj (string_data_inj hd)

theorem exists_free_cand (pre : String) (used : List String) (next : Nat) :
    ∃ k, k ≤ used.length ∧ cand pre (next + k) ∉ used := by
  by_contra hcon
  push_neg at hcon
  have hmap : ∀ k ∈ Finset.range (used.length + 1),
      cand pre (next + k) ∈ used.toFinset := by
    intro k hk
    rw [List.mem_toFinset]
    exact hcon k (Nat.lt_succ_iff.mp (Finset.mem_range.mp hk))
  have hcard : used.toFinset.card < (Finset.range (used.length + 1)).card := by
    rw [Finset.card_range]
    exact Nat.lt_succ_of_le (List.toFinset_card_le used)
  obtain ⟨x, _, y, _, hne, heq⟩ :=
    Finset.exists_ne_map_eq_of_card_lt_of_maps_to hcard hmap
  exact hne (Nat.add_left_cancel (cand_inj heq))

theorem alloc_loop_spec (pre : String) (used : List String) :
    ∀ (fuel next : Nat), (∃ k, k < fuel ∧ cand pre (next + k) ∉ used) →
      ∃ k, k < fuel
        ∧ alloc_loop pre used fuel next = (cand pre (next + k), next + k + 1)
        ∧ cand pre (next + k) ∉ used
        ∧ ∀ j, j < k → cand pre (next + j) ∈ used
  | 0, _, h => by
    obtain ⟨k, hk, _⟩ := h
    omega
  | fuel + 1, next, h => by
    rw [alloc_loop]
    by_cases hc : used.contains (cand pre next) = true
    · rw [if_pos hc]
      have hmem : cand pre next ∈ used := by simpa using hc
      obtain ⟨k, hk, hfree⟩ := h
      have hk0 : k ≠ 0 := by
        rintro rfl
        exact hfree (by simpa using hmem)
      obtain ⟨k', rfl⟩ : ∃ k', k = k' + 1 := ⟨k - 1, by omega⟩
      have h' : ∃ j, j < fuel ∧ cand pre (next + 1 + j) ∉ used :=
        ⟨k', by omega,
          by rw [show next + 1 + k' = next + (k' + 1) from by omega]; exact hfree⟩
      obtain ⟨j, hj, heq, hfree', hmin⟩ := alloc_loop_spec pre used fuel (next + 1) h'
      refine ⟨j + 1, by omega, ?_, ?_, ?_⟩
      · rw [show next + (j + 1) = next + 1 + j from by omega,
          show next + 1 + j + 1 = next + 1 + j + 1 from rfl]
        exact heq
      · rw [show next + (j + 1) = next + 1 + j from by omega]
        exact hfree'
      · intro i hi
        cases i with
        | zero => simpa using hmem
        | succ i' =>
          rw [show next + (i' + 1) = next + 1 + i' from by omega]
          exact hmin i' (by omega)
    · rw [if_neg hc]
      have hfree : cand pre next ∉ used := fun hm => hc (by simpa using hm)
      exact ⟨0, by omega, by simp, by simpa using hfree,
        fun j hj => absurd hj (by omega)⟩

theorem alloc_fresh_spec (pre : String) (used : List String) (next : Nat) :
    ∃ k, alloc_fresh pre used next = (cand pre (next + k), next + k + 1)
      ∧ cand pre (next + k) ∉ used
      ∧ ∀ j, j < k → cand pre (next + j) ∈ used := by
  obtain ⟨k, hk, hfree⟩ := exists_free_cand pre used next
  obtain ⟨j, _, heq, hfree', hmin⟩ :=
    alloc_loop_spec pre used (used.length + 1) next ⟨k, by omega, hfree⟩
  exact ⟨j, heq, hfree', hmin⟩

/-- C3 as amended: the `needs_new` decision is the claim's disjunction
*except* that the same-proposal collision disjunct applies only to ids not
present in the existing set — a valid non-added id found in the existing
set is always kept, even when a previously processed entity of the same
proposal already carries it.  When a fresh id is needed, the first free
candidate `E<next_index + k>` is allocated (all earlier candidates being
in use), it is recorded in the rewrite map, and it is fresh with respect
to every id used so far; otherwise the entity is unchanged and its id
merely marked used. -/
theorem claim_C3_amended (existing : List String) (st : EntSt) (e : CrtEntity) :
    (needs_new_entity existing st.used e =
      (!valid_entity_id e.id
        || (valid_entity_id e.id && (existing.contains e.id && e.added))
        || (valid_entity_id e.id && (!existing.contains e.id
              && st.used.contains e.id))))
    ∧ (needs_new_entity existing st.used e = true →
        ∃ k, (entity_step existing st e).1.id = cand "E" (st.next + k)
          ∧ (entity_step existing st e).1.id ∉ st.used
          ∧ (∀ j, j < k → cand "E" (st.next + j) ∈ st.used)
          ∧ (entity_step existing st e).2.mapping
              = insertAL st.mapping e.id (entity_step existing st e).1.id
          ∧ (entity_step existing st e).2.used
              = st.used ++ [(entity_step existing st e).1.id])
    ∧ (needs_new_entity existing st.used e = false →
        (entity_step existing st e).1 = e
          ∧ (entity_step existing st e).2.mapping = st.mapping
          ∧ (entity_step existing st e).2.used = st.used ++ [e.id]) := by
  refine ⟨?_, ?_, ?_⟩
  · cases h1 : valid_entity_id e.id <;>
      cases h2 : existing.contains e.id <;>
      cases h3 : st.used.contains e.id <;>
      cases h4 : e.added <;>
      simp only [needs_new_entity, h1, h2, h3, h4] <;> rfl
  · intro h
    obtain ⟨k, heq, hfree, hmin⟩ := alloc_fresh_spec "E" st.used st.next
    refine ⟨k, ?_, ?_, hmin, ?_, ?_⟩
    · simp [entity_step, h, heq]
    · simp only [entity_step, h, if_true, heq]
      exact hfree
    · simp [entity_step, h, heq]
    · simp [entity_step, h, heq]
  · intro h
    simp [entity_step, h]

/-- C3 counterexample: with `existing = [E1]` and two non-added proposed
entities both carrying id `E1`, the second entity's id collides with the
already-processed first entity, so the claimed iff requires a fresh id;
the code keeps both ids unchanged and records no mapping (the `else if`
chain never reaches the collision check for an id in the existing set). -/
theorem claim_C3_counterexample :
    (sanitize refTwiceE1 ["E1"] []).crt_restatement.entities
      = [⟨"E1", "a", false⟩, ⟨"E1", "b", false⟩]
    ∧ mapping_of refTwiceE1 ["E1"] = [] :=
  ⟨rfl, rfl⟩

/-- C3 witness: the spec's own collision example (`existing = [E1, E2]`,
proposed entity `id = E1, added = true`) allocates a fresh id not in the
used set. -/
theorem claim_C3_amended_witness :
    (entity_step ["E1", "E2"] (entInit ["E1", "E2"]) ⟨"E1", "x", true⟩).1.id
      ∉ (entInit ["E1", "E2"]).used := by
  obtain ⟨k, hcand, hfree, hmin, hmap, hused⟩ :=
    (claim_C3_amended ["E1", "E2"] (entInit ["E1", "E2"]) ⟨"E1", "x", true⟩).2.1
      (by decide)
  exact hfree

end Crt
